import Mathlib

/-!
# Verification of `pattern.cpp`: expression trees with a visitor

The development embeds the C++ program `src/pattern/pattern.cpp`:

* `Double` is an executable model of the C++ type `double` (IEEE-754 binary64,
  round to nearest, ties to even) with the primitives the program uses:
  `+ - * /`, `sqrt`, `fabs`, unary minus, decimal literals and
  `std::to_string`, which reads the global C locale `Locale`.
* `Expression` is the class hierarchy `Number`, `BinaryOperation`,
  `FunctionCall`, `Variable`; `evaluate`, `print` and `transform` are the three
  virtual methods; `Transformer` is the visitor interface.
* The constructors with their `assert`s are the functions `*.ctor`.
-/

set_option maxRecDepth 100000
set_option exponentiation.threshold 4096

namespace Pattern

/-! ## The type `double` -/

/-- A value of the C++ type `double`.

`finite s m e` is the number `(-1)^s * m * 2^e`.  The values the operations
below produce are canonical: `m < 2^53`, `-1074 ≤ e ≤ 971`, and `e = -1074`
whenever `m < 2^52` (zeros and subnormal numbers), so that two canonical values
are equal exactly when their bit patterns are.  `inf s` is the infinity of sign
`s`.  `nan s` is a not-a-number with sign bit `s`; its payload, which no
operation of the program shows, is not modelled.

IEEE-754 leaves the sign of a not-a-number that an operation produces to the
target.  The model follows x86-64 (SSE2) with glibc: an invalid operation
(`inf - inf`, `0 * inf`, `0 / 0`, `inf / inf`, `sqrt` of a negative number)
gives the not-a-number with the sign bit set, which `std::to_string` prints as
`-nan`; an operation on a not-a-number returns that operand with its sign, the
first operand when both are; `fabs` clears the sign bit and unary minus flips
it. -/
inductive Double where
  | finite (sign : Bool) (m : Nat) (e : Int)
  | inf (sign : Bool)
  | nan (sign : Bool)
  deriving DecidableEq

namespace Double

/-- Number of binary digits of `n`, by halving at most `fuel` times. -/
def bitLengthAux : Nat → Nat → Nat
  | 0, _ => 0
  | fuel + 1, n => if n = 0 then 0 else bitLengthAux fuel (n / 2) + 1

/-- Number of binary digits of `n` (`0` for `0`). -/
def bitLength (n : Nat) : Nat := bitLengthAux n n

/-- Numerator of `n / (d * 2^e)` written as a fraction of naturals. -/
def scaleNum (n : Nat) (e : Int) : Nat :=
  if 0 ≤ e then n else n * 2 ^ (-e).toNat

/-- Denominator of `n / (d * 2^e)` written as a fraction of naturals. -/
def scaleDen (d : Nat) (e : Int) : Nat :=
  if 0 ≤ e then d * 2 ^ e.toNat else d

/-- The integer nearest to `n / d`, ties going to the even one. -/
def roundQuot (n d : Nat) : Nat :=
  let q := n / d
  let r := n % d
  if 2 * r < d then q
  else if d < 2 * r then q + 1
  else if q % 2 = 0 then q else q + 1

/-- The `double` nearest to `(-1)^sign * n / d` (`0 < d`), ties to even;
overflow gives an infinity, underflow a subnormal number or a zero. -/
def round (sign : Bool) (n d : Nat) : Double :=
  if n = 0 then finite sign 0 (-1074)
  else
    let e0 : Int := (bitLength n : Int) - (bitLength d : Int) - 53
    let e1 : Int := if 2 ^ 53 ≤ scaleNum n e0 / scaleDen d e0 then e0 + 1 else e0
    let e : Int := if e1 < -1074 then -1074 else e1
    let m := roundQuot (scaleNum n e) (scaleDen d e)
    let m' := if m = 2 ^ 53 then 2 ^ 52 else m
    let e' : Int := if m = 2 ^ 53 then e + 1 else e
    if 971 < e' then inf sign else finite sign m' e'

/-- The `double` nearest to `(-1)^sign * n * 2^e`. -/
def roundPow2 (sign : Bool) (n : Nat) (e : Int) : Double :=
  round sign (scaleNum n (-e)) (scaleDen 1 (-e))

/-- Unary minus: flips the sign bit. -/
def neg : Double → Double
  | finite s m e => finite (!s) m e
  | inf s => inf (!s)
  | nan s => nan (!s)

/-- The function `fabs`: clears the sign bit. -/
def fabs : Double → Double
  | finite _ m e => finite false m e
  | inf _ => inf false
  | nan _ => nan false

/-- The signed integer `(-1)^s * n`. -/
def signed (s : Bool) (n : Nat) : Int := if s then -(n : Int) else (n : Int)

/-- Addition of `double`s. -/
def add : Double → Double → Double
  | nan s, _ => nan s
  | _, nan t => nan t
  | inf s, inf t => if s = t then inf s else nan true
  | inf s, finite _ _ _ => inf s
  | finite _ _ _, inf t => inf t
  | finite s m e, finite t k f =>
    let g : Int := if e ≤ f then e else f
    let total : Int := signed s (m * 2 ^ (e - g).toNat) + signed t (k * 2 ^ (f - g).toNat)
    if total = 0 then finite (s && t) 0 (-1074)
    else roundPow2 (decide (total < 0)) total.natAbs g

/-- Subtraction of `double`s: `x - y` is `x + (-y)`, except that an operand
`y` that is a not-a-number is passed on with its own sign. -/
def sub (x y : Double) : Double :=
  match y with
  | nan t => add x (nan t)
  | _ => add x (neg y)

/-- Multiplication of `double`s. -/
def mul : Double → Double → Double
  | nan s, _ => nan s
  | _, nan t => nan t
  | inf s, inf t => inf (xor s t)
  | inf s, finite t k _ => if k = 0 then nan true else inf (xor s t)
  | finite s m _, inf t => if m = 0 then nan true else inf (xor s t)
  | finite s m e, finite t k f => roundPow2 (xor s t) (m * k) (e + f)

/-- Division of `double`s; dividing by a zero gives an infinity or `nan`,
never an error. -/
def div : Double → Double → Double
  | nan s, _ => nan s
  | _, nan t => nan t
  | inf _, inf _ => nan true
  | inf s, finite t _ _ => inf (xor s t)
  | finite s _ _, inf t => finite (xor s t) 0 (-1074)
  | finite s m e, finite t k f =>
    if k = 0 then (if m = 0 then nan true else inf (xor s t))
    else round (xor s t) (scaleNum m (f - e)) (scaleDen k (f - e))

/-- Integer square root of `n` from its base-4 digits, `fuel` of them. -/
def isqrtAux : Nat → Nat → Nat
  | 0, _ => 0
  | fuel + 1, n =>
    let r := 2 * isqrtAux fuel (n / 4)
    if (r + 1) * (r + 1) ≤ n then r + 1 else r

/-- Integer square root: the largest `r` with `r * r ≤ n`. -/
def isqrt (n : Nat) : Nat := isqrtAux (bitLength n) n

/-- The function `sqrt`: the `double` nearest to the real square root; a
not-a-number for a negative argument, the argument itself for a zero of either
sign and for a not-a-number. -/
def sqrt : Double → Double
  | nan s => nan s
  | inf s => if s then nan true else inf false
  | finite s m e =>
    if m = 0 then finite s 0 e
    else if s then nan true
    else
      -- `m * 2^e = n * 2^(e - k)` with `e - k` even and `2^110 ≤ n`
      let k : Nat := if e % 2 = 0 then 110 else 111
      let n := m * 2 ^ k
      let q := isqrt n
      -- `2 * q + sticky` rounds like `2 * sqrt n`: `q` has more than 55 bits
      let sticky := if q * q = n then 0 else 1
      roundPow2 false (2 * q + sticky) ((e - k) / 2 - 1)

/-- The comparison `x < 0.0`: false for both zeros and for a not-a-number. -/
def isNegative : Double → Bool
  | finite s m _ => s && decide (m ≠ 0)
  | inf s => s
  | nan _ => false

/-- The value of a decimal literal `n / d` written in the source, for
instance `lit 1234 1000` for `1.234`: the nearest `double`. -/
def lit (n d : Nat) : Double := round false n d

instance : Add Double := ⟨add⟩
instance : Sub Double := ⟨sub⟩
instance : Mul Double := ⟨mul⟩
instance : Div Double := ⟨div⟩
instance : Neg Double := ⟨neg⟩

/-- The decimal digits of `n`, most significant first, at most `fuel + 1` of
them put in front of `acc`. -/
def decimalAux : Nat → Nat → List Char → List Char
  | 0, n, acc => Char.ofNat (48 + n % 10) :: acc
  | fuel + 1, n, acc =>
    if n < 10 then Char.ofNat (48 + n) :: acc
    else decimalAux fuel (n / 10) (Char.ofNat (48 + n % 10) :: acc)

/-- The decimal numeral of `n`, without leading zeros. -/
def decimal (n : Nat) : String := String.mk (decimalAux n n [])

/-- The six decimal digits of `n % 10^6`, zero-padded. -/
def sixDigits (n : Nat) : String :=
  String.mk [Char.ofNat (48 + n / 100000 % 10), Char.ofNat (48 + n / 10000 % 10),
    Char.ofNat (48 + n / 1000 % 10), Char.ofNat (48 + n / 100 % 10),
    Char.ofNat (48 + n / 10 % 10), Char.ofNat (48 + n % 10)]

end Double

/-- The numeric part of the global C locale (category `LC_NUMERIC`, the
members of `struct lconv` for numbers that are not money), which the functions
of the `printf` family read.  A host program changes it with `setlocale`; the
source never does. -/
structure Locale where
  decimal_point : String
  thousands_sep : String
  grouping : String
  deriving DecidableEq

/-- The locale in force when a program starts, the locale `"C"`.  The program
of the source runs in it from start to end. -/
def Locale.C : Locale := ⟨".", "", ""⟩

/-- The function `std::to_string(double)` under a given C locale.  It formats
like `printf` with `%f`: fixed notation, six digits after the decimal point of
the locale, the exact value rounded to the nearest multiple of `10^-6` (ties to
even).  The conversion has no grouping flag, so the other members of the locale
are not read.  Infinities print as `inf` and `-inf`, a not-a-number as `nan`
or, with the sign bit set, `-nan`. -/
def to_string (locale : Locale) : Double → String
  | Double.nan s => if s then "-nan" else "nan"
  | Double.inf s => if s then "-inf" else "inf"
  | Double.finite s m e =>
    let r := Double.roundQuot (Double.scaleNum (m * 10 ^ 6) (-e)) (Double.scaleDen 1 (-e))
    (if s then "-" else "") ++ Double.decimal (r / 10 ^ 6) ++ locale.decimal_point
      ++ Double.sixDigits r

/-- The text is in fixed notation with six digits after the decimal point: an
optional `-`, one or more digits, a point, and exactly six digits. -/
def fixedSixDigits (text : String) : Bool :=
  let body := if text.data.head? = some '-' then text.data.tail else text.data
  let whole := body.takeWhile Char.isDigit
  let rest := body.dropWhile Char.isDigit
  !whole.isEmpty && decide (rest.head? = some '.') && decide (rest.tail.length = 6)
    && rest.tail.all Char.isDigit

/-! ## The expression tree -/

/-- The class hierarchy under `Expression`: one constructor for each of the
structs `Number`, `BinaryOperation`, `FunctionCall` and `Variable`, holding the
struct's data members.  A child is a subtree: the constructors of the program
(`*.ctor` below) reject a null child, so a node that exists has its children.
The operator tag is the `int` member `op_`, here an integer without bound: what
is proved for every integer holds for every 32-bit value. -/
inductive Expression where
  | Number (value : Double)
  | BinaryOperation (left : Expression) (op : Int) (right : Expression)
  | FunctionCall (name : String) (arg : Expression)
  | Variable (name : String)
  deriving DecidableEq

/-- The enumerator `BinaryOperation::PLUS`, the code of the character `+`. -/
def BinaryOperation.PLUS : Int := 43
/-- The enumerator `BinaryOperation::MINUS`, the code of the character `-`. -/
def BinaryOperation.MINUS : Int := 45
/-- The enumerator `BinaryOperation::DIV`, the code of the character `/`. -/
def BinaryOperation.DIV : Int := 47
/-- The enumerator `BinaryOperation::MUL`, the code of the character `*`. -/
def BinaryOperation.MUL : Int := 42

/-! ### Constructors

A pointer argument is an `Option Expression`, `none` being the null pointer.
The result is `none` when an `assert` of the constructor fails (the process is
aborted and no object exists), and `some node` otherwise. -/

/-- The constructor `Number(double value)`: no check. -/
def Number.ctor (value : Double) : Option Expression :=
  some (Expression.Number value)

/-- The constructor `BinaryOperation(left, op, right)`:
`assert(left_ && right_)`. -/
def BinaryOperation.ctor (left : Option Expression) (op : Int)
    (right : Option Expression) : Option Expression :=
  match left, right with
  | some l, some r => some (Expression.BinaryOperation l op r)
  | _, _ => none

/-- The constructor `FunctionCall(name, arg)`: `assert(arg_)`, then
`assert(name_ == "sqrt" || name_ == "abs")`. -/
def FunctionCall.ctor (name : String) (arg : Option Expression) : Option Expression :=
  match arg with
  | none => none
  | some a => if name = "sqrt" ∨ name = "abs" then some (Expression.FunctionCall name a) else none

/-- The constructor `Variable(name)`: no check. -/
def Variable.ctor (name : String) : Option Expression :=
  some (Expression.Variable name)

namespace Expression

/-- The virtual method `evaluate`.  The result is `none` when the call has no
defined result: in `BinaryOperation::evaluate` the `switch` has no `default`,
and for a tag other than the four enumerators control reaches the end of the
function without a `return`. -/
def evaluate : Expression → Option Double
  | Number value => some value
  | BinaryOperation left_ op_ right_ =>
    match evaluate left_ with
    | none => none
    | some left =>
      match evaluate right_ with
      | none => none
      | some right =>
        if op_ = BinaryOperation.PLUS then some (left + right)
        else if op_ = BinaryOperation.MINUS then some (left - right)
        else if op_ = BinaryOperation.DIV then some (left / right)
        else if op_ = BinaryOperation.MUL then some (left * right)
        else none
  | FunctionCall name_ arg_ =>
    if name_ = "sqrt" then (evaluate arg_).map Double.sqrt
    else (evaluate arg_).map Double.fabs
  | Variable _ => some (Double.lit 0 1)

/-- The conversion of the `int` tag to `char` in `std::string(1, op_)`: the
low eight bits are kept.  The byte is written as the character of that code. -/
def narrow (op : Int) : Char := Char.ofNat (op % 256).toNat

/-- The virtual method `print`, in the locale of the program: the program
starts in the locale `"C"` and the source has no call of `setlocale`.  (The call
under any locale is `printCall` below.) -/
def print : Expression → String
  | Number value_ => to_string Locale.C value_
  | BinaryOperation left_ op_ right_ =>
    print left_ ++ String.mk (List.replicate 1 (narrow op_)) ++ print right_
  | FunctionCall name_ arg_ => name_ ++ "(" ++ print arg_ ++ ")"
  | Variable name_ => name_

end Expression

/-- The interface `Transformer`: four methods, one for each struct.  A method
receives the node of its struct, here the data the node holds, and may use and
change the transformer's own state `σ`; it returns a pointer (`none` for null)
and the new state. -/
structure Transformer (σ : Type) where
  transformNumber : Double → σ → Option Expression × σ
  transformBinaryOperation : Expression → Int → Expression → σ → Option Expression × σ
  transformFunctionCall : String → Expression → σ → Option Expression × σ
  transformVariable : String → σ → Option Expression × σ

/-- The virtual method `transform`: each struct passes `this` to the method of
the transformer that bears its name. -/
def Expression.transform {σ : Type} (tr : Transformer σ) :
    Expression → σ → Option Expression × σ
  | Expression.Number value_ => tr.transformNumber value_
  | Expression.BinaryOperation left_ op_ right_ => tr.transformBinaryOperation left_ op_ right_
  | Expression.FunctionCall name_ arg_ => tr.transformFunctionCall name_ arg_
  | Expression.Variable name_ => tr.transformVariable name_

/-! ### Trees built by the constructors -/

/-- The trees a caller can build: every node is the result of a constructor
call that succeeded, on children built the same way. -/
inductive Constructed : Expression → Prop where
  | ofNumber (value : Double) (node : Expression) :
      Number.ctor value = some node → Constructed node
  | ofBinaryOperation (left right : Expression) (op : Int) (node : Expression) :
      Constructed left → Constructed right →
      BinaryOperation.ctor (some left) op (some right) = some node → Constructed node
  | ofFunctionCall (name : String) (arg : Expression) (node : Expression) :
      Constructed arg → FunctionCall.ctor name (some arg) = some node → Constructed node
  | ofVariable (name : String) (node : Expression) :
      Variable.ctor name = some node → Constructed node

namespace Expression

/-- The check that decides `Constructed`: every function name in the tree is
`sqrt` or `abs`. -/
def wellFormed : Expression → Bool
  | Number _ => true
  | BinaryOperation left_ _ right_ => wellFormed left_ && wellFormed right_
  | FunctionCall name_ arg_ => (decide (name_ = "sqrt") || decide (name_ = "abs")) && wellFormed arg_
  | Variable _ => true

/-- All nodes of a tree: the root, then the nodes of the children. -/
def nodes : Expression → List Expression
  | Number value_ => [Number value_]
  | BinaryOperation left_ op_ right_ =>
    BinaryOperation left_ op_ right_ :: (nodes left_ ++ nodes right_)
  | FunctionCall name_ arg_ => FunctionCall name_ arg_ :: nodes arg_
  | Variable name_ => [Variable name_]

end Expression

/-! ### The identity transformer -/

/-- Modelled from the spec: the traversal of the identity transformer, which
the source does not contain.  The spec describes it as rebuilding "an
equivalent tree node-for-node, recursively transforming children first
(post-order) then rebuilding the parent around the results": every node is
rebuilt by the constructor of its own struct from the rebuilt children. -/
def identityVisit : Expression → Option Expression
  | Expression.Number value_ => Number.ctor value_
  | Expression.BinaryOperation left_ op_ right_ =>
    BinaryOperation.ctor (identityVisit left_) op_ (identityVisit right_)
  | Expression.FunctionCall name_ arg_ => FunctionCall.ctor name_ (identityVisit arg_)
  | Expression.Variable name_ => Variable.ctor name_

/-- Modelled from the spec: the identity transformer, which the source does
not contain.  It has no state; each of its four methods builds a new node of
the same struct around the transformed children. -/
def identity : Transformer Unit where
  transformNumber := fun value_ s => (Number.ctor value_, s)
  transformBinaryOperation := fun left_ op_ right_ s =>
    (BinaryOperation.ctor (identityVisit left_) op_ (identityVisit right_), s)
  transformFunctionCall := fun name_ arg_ s => (FunctionCall.ctor name_ (identityVisit arg_), s)
  transformVariable := fun name_ s => (Variable.ctor name_, s)

/-! ### The trees of `main` -/

namespace main

/-- `Expression* e1 = new Number(1.234);` -/
def e1 : Option Expression := Number.ctor (Double.lit 1234 1000)
/-- `Expression* e2 = new Number(-1.234);` -/
def e2 : Option Expression := Number.ctor (-Double.lit 1234 1000)
/-- `Expression* e3 = new BinaryOperation(e1, BinaryOperation::DIV, e2);` -/
def e3 : Option Expression := BinaryOperation.ctor e1 BinaryOperation.DIV e2
/-- `Expression* m32 = new Number(32.0);` -/
def m32 : Option Expression := Number.ctor (Double.lit 32 1)
/-- `Expression* m16 = new Number(16.0);` -/
def m16 : Option Expression := Number.ctor (Double.lit 16 1)
/-- `Expression* minus = new BinaryOperation(m32, BinaryOperation::MINUS, m16);` -/
def minus : Option Expression := BinaryOperation.ctor m32 BinaryOperation.MINUS m16
/-- `Expression* callSqrt = new FunctionCall("sqrt", minus);` -/
def callSqrt : Option Expression := FunctionCall.ctor "sqrt" minus
/-- `Expression* m2 = new Number(2.0);` -/
def m2 : Option Expression := Number.ctor (Double.lit 2 1)
/-- `Expression* mult = new BinaryOperation(m2, BinaryOperation::MUL, callSqrt);` -/
def mult : Option Expression := BinaryOperation.ctor m2 BinaryOperation.MUL callSqrt
/-- `Expression* callAbs = new FunctionCall("abs", mult);` -/
def callAbs : Option Expression := FunctionCall.ctor "abs" mult

end main

/-! ### Calls of `print`, and trees compared up to variable names -/

namespace Expression

/-- What a call of `print` returns and leaves behind: the text, the object as
the call leaves it, and the global locale as the call leaves it. -/
structure PrintCall where
  text : String
  object : Expression
  locale : Locale

/-- The method `print` as a call on an object under a global locale.  The
method is `const`: it assigns no member, and it calls only `std::to_string`,
which reads the locale, the operators of `std::string`, and `print` on the
children.  The call on the right child runs in the state the call on the left
child leaves. -/
def printCall : Expression → Locale → PrintCall
  | Number value_, g => ⟨to_string g value_, Number value_, g⟩
  | BinaryOperation left_ op_ right_, g =>
    let l := printCall left_ g
    let r := printCall right_ l.locale
    ⟨l.text ++ String.mk (List.replicate 1 (narrow op_)) ++ r.text,
      BinaryOperation l.object op_ r.object, r.locale⟩
  | FunctionCall name_ arg_, g =>
    let a := printCall arg_ g
    ⟨name_ ++ "(" ++ a.text ++ ")", FunctionCall name_ a.object, a.locale⟩
  | Variable name_, g => ⟨name_, Variable name_, g⟩

/-- Two trees have the same shape, the same `Number` values, the same operator
tags and the same function names: they differ at most in the names of their
`Variable` leaves. -/
def sameUpToNames : Expression → Expression → Bool
  | Number a, Number b => decide (a = b)
  | BinaryOperation l1 op1 r1, BinaryOperation l2 op2 r2 =>
    sameUpToNames l1 l2 && decide (op1 = op2) && sameUpToNames r1 r2
  | FunctionCall n1 a1, FunctionCall n2 a2 => decide (n1 = n2) && sameUpToNames a1 a2
  | Variable _, Variable _ => true
  | _, _ => false

end Expression

/-! ### Two nestings of the same subtraction -/

namespace nested

/-- The tree `(8 - 4) - 2`. -/
def left : Option Expression :=
  BinaryOperation.ctor
    (BinaryOperation.ctor (Number.ctor (Double.lit 8 1)) BinaryOperation.MINUS
      (Number.ctor (Double.lit 4 1)))
    BinaryOperation.MINUS (Number.ctor (Double.lit 2 1))

/-- The tree `8 - (4 - 2)`. -/
def right : Option Expression :=
  BinaryOperation.ctor (Number.ctor (Double.lit 8 1)) BinaryOperation.MINUS
    (BinaryOperation.ctor (Number.ctor (Double.lit 4 1)) BinaryOperation.MINUS
      (Number.ctor (Double.lit 2 1)))

end nested

/-! ## Auxiliary facts

### The model of `double` -/

namespace Double

/-- With fuel `n ≤ fuel` the digit count is large enough: `n < 2^digits`. -/
theorem lt_two_pow_bitLengthAux (fuel : Nat) : ∀ n : Nat, n ≤ fuel → n < 2 ^ bitLengthAux fuel n := by
  induction fuel with
  | zero =>
    intro n hn
    simp [bitLengthAux]
    omega
  | succ fuel ih =>
    intro n hn
    unfold bitLengthAux
    by_cases h0 : n = 0
    · simp [h0]
    · rw [if_neg h0]
      have h2 : n / 2 ≤ fuel := by omega
      have := ih (n / 2) h2
      rw [pow_succ]
      omega

/-- A number is below two to the power of its number of binary digits. -/
theorem lt_two_pow_bitLength (n : Nat) : n < 2 ^ bitLength n :=
  lt_two_pow_bitLengthAux n n (le_refl n)

/-- With `n < 4^fuel` the digit recursion computes the integer square root. -/
theorem isqrtAux_spec (fuel : Nat) : ∀ n : Nat, n < 4 ^ fuel →
    isqrtAux fuel n * isqrtAux fuel n ≤ n ∧ n < (isqrtAux fuel n + 1) * (isqrtAux fuel n + 1) := by
  induction fuel with
  | zero =>
    intro n hn
    simp at hn
    simp [isqrtAux, hn]
  | succ fuel ih =>
    intro n hn
    have h4 : n / 4 < 4 ^ fuel := by
      rw [pow_succ] at hn
      omega
    obtain ⟨h1, h2⟩ := ih (n / 4) h4
    simp only [isqrtAux]
    generalize isqrtAux fuel (n / 4) = r at h1 h2 ⊢
    by_cases hc : (2 * r + 1) * (2 * r + 1) ≤ n
    · rw [if_pos hc]
      refine ⟨hc, ?_⟩
      nlinarith [Nat.div_add_mod n 4, Nat.mod_lt n (show 0 < 4 by norm_num)]
    · rw [if_neg hc]
      have h5 : 4 * (n / 4) ≤ n := by omega
      refine ⟨?_, by omega⟩
      nlinarith

/-- The function `isqrt` is the integer square root. -/
theorem isqrt_spec (n : Nat) :
    isqrt n * isqrt n ≤ n ∧ n < (isqrt n + 1) * (isqrt n + 1) := by
  apply isqrtAux_spec
  calc n < 2 ^ bitLength n := lt_two_pow_bitLength n
    _ ≤ 4 ^ bitLength n := Nat.pow_le_pow_left (by norm_num) _

/-- The function `roundQuot` returns an integer nearest to `n / d`. -/
theorem roundQuot_spec (n d : Nat) (hd : 0 < d) :
    2 * (roundQuot n d * d) ≤ 2 * n + d ∧ 2 * n ≤ 2 * (roundQuot n d * d) + d := by
  have hdm := Nat.div_add_mod n d
  have hlt := Nat.mod_lt n hd
  simp only [roundQuot]
  generalize n / d = q at hdm ⊢
  generalize n % d = m at hdm hlt ⊢
  subst hdm
  split_ifs <;> constructor <;> nlinarith

/-- Known values of the arithmetic: `0.1 + 0.2` is the `double` above `0.3`,
`sqrt(2.0)` is `0x3FF6A09E667F3BCD`, `1.0 / 3.0` is `0x3FD5555555555555`. -/
theorem known_values :
    lit 1 10 + lit 2 10 = finite false 5404319552844596 (-54) ∧
    lit 3 10 = finite false 5404319552844595 (-54) ∧
    sqrt (lit 2 1) = finite false 6369051672525773 (-52) ∧
    lit 1 1 / lit 3 1 = finite false 6004799503160661 (-54) := by
  decide

/-- Known special cases: division by zero gives an infinity, `0.0 / 0.0` and
`inf - inf` are not-a-number, `sqrt(-0.0)` is `-0.0`, `x - x` is `+0.0`. -/
theorem known_special_values :
    lit 1 1 / lit 0 1 = inf false ∧
    -lit 1 1 / lit 0 1 = inf true ∧
    lit 0 1 / lit 0 1 = nan true ∧
    inf false - inf false = nan true ∧
    lit 0 1 * inf false = nan true ∧
    sqrt (-lit 4 1) = nan true ∧
    fabs (sqrt (-lit 4 1)) = nan false ∧
    lit 1 1 - nan false = nan false ∧
    -nan true = nan false ∧
    sqrt (-lit 0 1) = -lit 0 1 ∧
    lit 5 1 - lit 5 1 = lit 0 1 ∧
    lit 5 (10 ^ 324) = finite false 1 (-1074) ∧
    lit 2 1 * lit (10 ^ 308) 1 = inf false := by
  decide

end Double

/-- Known values of `std::to_string`. -/
theorem to_string_known_values :
    to_string Locale.C (Double.lit 32 1) = "32.000000" ∧
    to_string Locale.C (Double.lit 1234 1000) = "1.234000" ∧
    to_string Locale.C (-Double.lit 0 1) = "-0.000000" ∧
    to_string Locale.C (Double.lit 1 128) = "0.007812" ∧
    to_string Locale.C (Double.lit 9999995 10000000) = "1.000000" ∧
    to_string Locale.C (Double.lit 1 1 / Double.lit 0 1) = "inf" ∧
    to_string Locale.C (Double.sqrt (-Double.lit 4 1)) = "-nan" ∧
    to_string Locale.C (Double.lit 0 1 / Double.lit 0 1) = "-nan" ∧
    to_string Locale.C (Double.fabs (Double.sqrt (-Double.lit 4 1))) = "nan" ∧
    to_string (Locale.mk "," "." "") (Double.lit 1234 1000) = "1,234000" := by
  decide

/-! ### Constructors and trees -/

theorem binaryOperation_ctor_some (l r : Expression) (op : Int) :
    BinaryOperation.ctor (some l) op (some r) = some (Expression.BinaryOperation l op r) := rfl

theorem functionCall_ctor_some (name : String) (arg : Expression)
    (h : name = "sqrt" ∨ name = "abs") :
    FunctionCall.ctor name (some arg) = some (Expression.FunctionCall name arg) := by
  simp [FunctionCall.ctor, h]

theorem functionCall_ctor_eq_some {name : String} {arg node : Expression}
    (h : FunctionCall.ctor name (some arg) = some node) :
    (name = "sqrt" ∨ name = "abs") ∧ node = Expression.FunctionCall name arg := by
  by_cases hn : name = "sqrt" ∨ name = "abs"
  · rw [functionCall_ctor_some name arg hn] at h
    exact ⟨hn, (Option.some.inj h).symm⟩
  · simp [FunctionCall.ctor, hn] at h

/-- A tree is built by the constructors exactly when the check `wellFormed`
accepts it. -/
theorem constructed_iff_wellFormed (e : Expression) :
    Constructed e ↔ e.wellFormed = true := by
  constructor
  · intro h
    induction h with
    | ofNumber value node h =>
      cases Option.some.inj h
      rfl
    | ofBinaryOperation left right op node _ _ h ihl ihr =>
      cases Option.some.inj h
      simp [Expression.wellFormed, ihl, ihr]
    | ofFunctionCall name arg node _ h ih =>
      obtain ⟨hn, rfl⟩ := functionCall_ctor_eq_some h
      simpa [Expression.wellFormed, ih] using hn
    | ofVariable name node h =>
      cases Option.some.inj h
      rfl
  · intro h
    induction e with
    | Number value => exact Constructed.ofNumber value _ rfl
    | BinaryOperation left op right ihl ihr =>
      simp only [Expression.wellFormed, Bool.and_eq_true] at h
      exact Constructed.ofBinaryOperation left right op _ (ihl h.1) (ihr h.2) rfl
    | FunctionCall name arg ih =>
      simp only [Expression.wellFormed, Bool.and_eq_true, Bool.or_eq_true,
        decide_eq_true_eq] at h
      exact Constructed.ofFunctionCall name arg _ (ih h.2) (functionCall_ctor_some name arg h.1)
    | Variable name => exact Constructed.ofVariable name _ rfl

/-- The identity traversal returns a built tree unchanged. -/
theorem identityVisit_of_wellFormed (e : Expression) (h : e.wellFormed = true) :
    identityVisit e = some e := by
  induction e with
  | Number value => rfl
  | BinaryOperation left op right ihl ihr =>
    simp only [Expression.wellFormed, Bool.and_eq_true] at h
    simp [identityVisit, ihl h.1, ihr h.2, BinaryOperation.ctor]
  | FunctionCall name arg ih =>
    simp only [Expression.wellFormed, Bool.and_eq_true, Bool.or_eq_true,
      decide_eq_true_eq] at h
    simp [identityVisit, ih h.2, functionCall_ctor_some name arg h.1]
  | Variable name => rfl

/-- The method `transform` with the identity transformer is the identity
traversal: each method of `identity` rebuilds its node around the children's
own `transform(identity)`. -/
theorem transform_identity (e : Expression) (s : Unit) :
    e.transform identity s = (identityVisit e, s) := by
  cases e <;> rfl

/-- Every node of a well-formed tree is well-formed. -/
theorem wellFormed_of_mem_nodes (e n : Expression) (h : e.wellFormed = true)
    (hn : n ∈ e.nodes) : n.wellFormed = true := by
  induction e with
  | Number value =>
    simp only [Expression.nodes, List.mem_singleton] at hn
    rw [hn]; exact h
  | BinaryOperation left op right ihl ihr =>
    simp only [Expression.nodes, List.mem_cons, List.mem_append] at hn
    have h' := h
    simp only [Expression.wellFormed, Bool.and_eq_true] at h'
    rcases hn with hn | hn | hn
    · rw [hn]; exact h
    · exact ihl h'.1 hn
    · exact ihr h'.2 hn
  | FunctionCall name arg ih =>
    simp only [Expression.nodes, List.mem_cons] at hn
    have h' := h
    simp only [Expression.wellFormed, Bool.and_eq_true] at h'
    rcases hn with hn | hn
    · rw [hn]; exact h
    · exact ih h'.2 hn
  | Variable name =>
    simp only [Expression.nodes, List.mem_singleton] at hn
    rw [hn]; exact h

/-- When every operator tag in the tree is one of the four enumerators,
`evaluate` returns a value. -/
theorem evaluate_isSome_of_tags (e : Expression)
    (h : ∀ l op r, Expression.BinaryOperation l op r ∈ e.nodes →
      op = BinaryOperation.PLUS ∨ op = BinaryOperation.MINUS ∨
      op = BinaryOperation.DIV ∨ op = BinaryOperation.MUL) :
    ∃ v, e.evaluate = some v := by
  induction e with
  | Number value => exact ⟨value, rfl⟩
  | BinaryOperation left op right ihl ihr =>
    obtain ⟨a, ha⟩ := ihl (fun l o r hm => h l o r (by
      simp only [Expression.nodes, List.mem_cons, List.mem_append]; exact Or.inr (Or.inl hm)))
    obtain ⟨b, hb⟩ := ihr (fun l o r hm => h l o r (by
      simp only [Expression.nodes, List.mem_cons, List.mem_append]; exact Or.inr (Or.inr hm)))
    have hop := h left op right (by simp [Expression.nodes])
    rcases hop with hop | hop | hop | hop <;>
      simp [Expression.evaluate, ha, hb, hop, BinaryOperation.PLUS, BinaryOperation.MINUS,
        BinaryOperation.DIV, BinaryOperation.MUL]
  | FunctionCall name arg ih =>
    obtain ⟨a, ha⟩ := ih (fun l o r hm => h l o r (by
      simp only [Expression.nodes, List.mem_cons]; exact Or.inr hm))
    by_cases hn : name = "sqrt" <;> simp [Expression.evaluate, ha, hn]
  | Variable name => exact ⟨_, rfl⟩

/-- The method `transformBinaryOperation` of the identity transformer builds a
new `BinaryOperation` from the children's own `transform(identity)`. -/
theorem identity_transformBinaryOperation (l r : Expression) (op : Int) (s : Unit) :
    identity.transformBinaryOperation l op r s
      = (BinaryOperation.ctor (l.transform identity s).1 op (r.transform identity s).1, s) := by
  rw [transform_identity, transform_identity]
  rfl

/-- The method `transformFunctionCall` of the identity transformer builds a
new `FunctionCall` from the argument's own `transform(identity)`. -/
theorem identity_transformFunctionCall (name : String) (arg : Expression) (s : Unit) :
    identity.transformFunctionCall name arg s
      = (FunctionCall.ctor name (arg.transform identity s).1, s) := by
  rw [transform_identity]
  rfl

/-! ### Printing, and trees up to variable names -/

/-- A digit character `0`..`9` built from its value. -/
theorem isDigit_ofNat_digit (n : Nat) : (Char.ofNat (48 + n % 10)).isDigit = true := by
  have h : n % 10 < 10 := Nat.mod_lt n (by norm_num)
  generalize n % 10 = d at h
  interval_cases d <;> decide

/-- The fraction part written by `std::to_string` has six digit characters. -/
theorem sixDigits_shape (n : Nat) :
    (Double.sixDigits n).length = 6 ∧ ∀ c ∈ (Double.sixDigits n).data, c.isDigit = true := by
  refine ⟨rfl, ?_⟩
  intro c hc
  simp only [Double.sixDigits, List.mem_cons, List.mem_singleton, List.not_mem_nil, or_false] at hc
  rcases hc with h | h | h | h | h | h <;> rw [h] <;> exact isDigit_ofNat_digit _

/-- The text of `std::to_string` depends on the locale through its decimal
point only. -/
theorem to_string_congr (g g' : Locale) (h : g'.decimal_point = g.decimal_point)
    (v : Double) : to_string g' v = to_string g v := by
  cases v <;> simp [to_string, h]

/-- A call of `print` leaves the global locale as it found it. -/
theorem printCall_locale (T : Expression) : ∀ g : Locale, (T.printCall g).locale = g := by
  induction T with
  | Number value => intro g; rfl
  | BinaryOperation left op right ihl ihr =>
    intro g
    simp only [Expression.printCall, ihl, ihr]
  | FunctionCall name arg ih =>
    intro g
    simp only [Expression.printCall, ih]
  | Variable name => intro g; rfl

/-- A call of `print` leaves the tree as it found it. -/
theorem printCall_object (T : Expression) : ∀ g : Locale, (T.printCall g).object = T := by
  induction T with
  | Number value => intro g; rfl
  | BinaryOperation left op right ihl ihr =>
    intro g
    simp only [Expression.printCall, ihl, ihr]
  | FunctionCall name arg ih =>
    intro g
    simp only [Expression.printCall, ih]
  | Variable name => intro g; rfl

/-- The text of a call of `print` depends on the locale through its decimal
point only. -/
theorem printCall_text_congr (T : Expression) :
    ∀ g g' : Locale, g'.decimal_point = g.decimal_point →
      (T.printCall g').text = (T.printCall g).text := by
  induction T with
  | Number value =>
    intro g g' h
    exact to_string_congr g g' h value
  | BinaryOperation left op right ihl ihr =>
    intro g g' h
    simp only [Expression.printCall, printCall_locale]
    rw [ihl g g' h, ihr g g' h]
  | FunctionCall name arg ih =>
    intro g g' h
    simp only [Expression.printCall]
    rw [ih g g' h]
  | Variable name => intro g g' _; rfl

/-- In the locale `"C"` the text of a call of `print` is `print`. -/
theorem printCall_text_C (T : Expression) : (T.printCall Locale.C).text = T.print := by
  induction T with
  | Number value => rfl
  | BinaryOperation left op right ihl ihr =>
    simp only [Expression.printCall, printCall_locale, Expression.print, ihl, ihr]
  | FunctionCall name arg ih =>
    simp only [Expression.printCall, Expression.print, ih]
  | Variable name => rfl

/-- Digits in front of a point: the leading digits are the whole part. -/
theorem takeWhile_digits_point (whole rest : List Char)
    (h : ∀ c ∈ whole, c.isDigit = true) :
    (whole ++ '.' :: rest).takeWhile Char.isDigit = whole ∧
    (whole ++ '.' :: rest).dropWhile Char.isDigit = '.' :: rest := by
  induction whole with
  | nil =>
    have hp : Char.isDigit '.' = false := by decide
    simp [List.takeWhile, List.dropWhile, hp]
  | cons c cs ih =>
    have hc : c.isDigit = true := h c (List.mem_cons_self c cs)
    have ih' := ih (fun d hd => h d (List.mem_cons_of_mem c hd))
    simp [List.takeWhile, List.dropWhile, hc, ih'.1, ih'.2]

/-- A text made of an optional `-`, digits, a point and six digits is in fixed
notation with six digits after the decimal point. -/
theorem fixedSixDigits_of_shape (s : Bool) (whole frac : List Char)
    (hne : whole ≠ []) (hw : ∀ c ∈ whole, c.isDigit = true)
    (hlen : frac.length = 6) (hf : ∀ c ∈ frac, c.isDigit = true) :
    fixedSixDigits ((if s then "-" else "") ++ String.mk whole ++ "." ++ String.mk frac)
      = true := by
  have hdata : ((if s then "-" else "") ++ String.mk whole ++ "." ++ String.mk frac).data
      = (if s then ['-'] else []) ++ (whole ++ '.' :: frac) := by
    cases s <;> simp [String.data_append]
  obtain ⟨w0, ws, rfl⟩ := List.exists_cons_of_ne_nil hne
  have hw0 : w0.isDigit = true := hw w0 (List.mem_cons_self w0 ws)
  have hw0ne : w0 ≠ '-' := by
    intro h
    rw [h] at hw0
    exact absurd hw0 (by decide)
  have hbody : (if ((if s then ['-'] else []) ++ (w0 :: ws ++ '.' :: frac)).head? = some '-'
      then ((if s then ['-'] else []) ++ (w0 :: ws ++ '.' :: frac)).tail
      else ((if s then ['-'] else []) ++ (w0 :: ws ++ '.' :: frac)))
      = w0 :: ws ++ '.' :: frac := by
    cases s <;> simp [hw0ne]
  obtain ⟨ht, hd⟩ := takeWhile_digits_point (w0 :: ws) frac hw
  simp only [fixedSixDigits, hdata, hbody, ht, hd]
  simp [hlen, List.all_eq_true]
  exact hf

/-- Trees that differ at most in variable names evaluate alike. -/
theorem evaluate_eq_of_sameUpToNames (T1 : Expression) :
    ∀ T2 : Expression, T1.sameUpToNames T2 = true → T1.evaluate = T2.evaluate := by
  induction T1 with
  | Number value =>
    intro T2 h
    cases T2 <;> simp [Expression.sameUpToNames] at h
    rw [h]
  | BinaryOperation left op right ihl ihr =>
    intro T2 h
    cases T2 <;> simp [Expression.sameUpToNames] at h
    obtain ⟨⟨h1, h2⟩, h3⟩ := h
    simp only [Expression.evaluate, ihl _ h1, ihr _ h3, h2]
  | FunctionCall name arg ih =>
    intro T2 h
    cases T2 <;> simp [Expression.sameUpToNames] at h
    obtain ⟨h1, h2⟩ := h
    simp only [Expression.evaluate, ih _ h2, h1]
  | Variable name =>
    intro T2 h
    cases T2 <;> simp [Expression.sameUpToNames] at h
    rfl

/-- Adding `256` to a tag does not change the character it is narrowed to. -/
theorem narrow_add_256 (k : Int) : Expression.narrow (k + 256) = Expression.narrow k := by
  simp [Expression.narrow]

/-- Every character of a decimal numeral is a digit, when those already
written are. -/
theorem decimalAux_digits (fuel : Nat) : ∀ (n : Nat) (acc : List Char),
    (∀ c ∈ acc, c.isDigit = true) → ∀ c ∈ Double.decimalAux fuel n acc, c.isDigit = true := by
  induction fuel with
  | zero =>
    intro n acc hacc c hc
    simp only [Double.decimalAux, List.mem_cons] at hc
    rcases hc with h | h
    · rw [h]; exact isDigit_ofNat_digit n
    · exact hacc c h
  | succ fuel ih =>
    intro n acc hacc c hc
    unfold Double.decimalAux at hc
    by_cases hn : n < 10
    · rw [if_pos hn] at hc
      simp only [List.mem_cons] at hc
      rcases hc with h | h
      · rw [h]
        have := isDigit_ofNat_digit n
        rwa [Nat.mod_eq_of_lt hn] at this
      · exact hacc c h
    · rw [if_neg hn] at hc
      refine ih (n / 10) _ ?_ c hc
      intro c' hc'
      simp only [List.mem_cons] at hc'
      rcases hc' with h | h
      · rw [h]; exact isDigit_ofNat_digit n
      · exact hacc c' h

/-- A decimal numeral has at least one character. -/
theorem decimalAux_ne_nil (fuel : Nat) : ∀ (n : Nat) (acc : List Char),
    Double.decimalAux fuel n acc ≠ [] := by
  induction fuel with
  | zero => intro n acc; simp [Double.decimalAux]
  | succ fuel ih =>
    intro n acc
    unfold Double.decimalAux
    by_cases hn : n < 10
    · rw [if_pos hn]; simp
    · rw [if_neg hn]; exact ih _ _

/-! ## The claims -/

/-- C1: for expressions `l` and `r` that evaluate to `a` and `b`, the node
`BinaryOperation(l, op, r)` evaluates to `a + b` for `PLUS`, `a - b` for
`MINUS`, `a / b` for `DIV` and `a * b` for `MUL`; and
`BinaryOperation(Number(32), MINUS, Number(16))` evaluates to `16.0`. -/
theorem binaryOperation_evaluate :
    (∀ (l r : Expression) (a b : Double), l.evaluate = some a → r.evaluate = some b →
      (Expression.BinaryOperation l BinaryOperation.PLUS r).evaluate = some (a + b) ∧
      (Expression.BinaryOperation l BinaryOperation.MINUS r).evaluate = some (a - b) ∧
      (Expression.BinaryOperation l BinaryOperation.DIV r).evaluate = some (a / b) ∧
      (Expression.BinaryOperation l BinaryOperation.MUL r).evaluate = some (a * b)) ∧
    (BinaryOperation.ctor (Number.ctor (Double.lit 32 1)) BinaryOperation.MINUS
        (Number.ctor (Double.lit 16 1))).bind Expression.evaluate = some (Double.lit 16 1) := by
  refine ⟨?_, by decide⟩
  intro l r a b hl hr
  refine ⟨?_, ?_, ?_, ?_⟩ <;>
    simp [Expression.evaluate, hl, hr, BinaryOperation.PLUS, BinaryOperation.MINUS,
      BinaryOperation.DIV, BinaryOperation.MUL]

/-- Witness of C1 at `l = Number(32)`, `r = Number(16)`. -/
theorem binaryOperation_evaluate_witness :
    (Expression.Number (Double.lit 32 1)).evaluate = some (Double.lit 32 1) ∧
    (Expression.Number (Double.lit 16 1)).evaluate = some (Double.lit 16 1) ∧
    (Expression.BinaryOperation (Expression.Number (Double.lit 32 1)) BinaryOperation.MINUS
      (Expression.Number (Double.lit 16 1))).evaluate
      = some (Double.lit 32 1 - Double.lit 16 1) :=
  ⟨rfl, rfl, (binaryOperation_evaluate.1 (Expression.Number (Double.lit 32 1))
    (Expression.Number (Double.lit 16 1)) (Double.lit 32 1) (Double.lit 16 1) rfl rfl).2.1⟩

/-- C2: for an argument that evaluates to `x`, `FunctionCall("sqrt", arg)` is
accepted by the constructor and evaluates to `sqrt(x)`, which is not-a-number
when `x < 0`; `FunctionCall("abs", arg)` is accepted and evaluates to
`fabs(x)`; and `FunctionCall("abs", Number(-1.234))` evaluates to `1.234`. -/
theorem functionCall_evaluate :
    (∀ (arg : Expression) (x : Double), arg.evaluate = some x →
      FunctionCall.ctor "sqrt" (some arg) = some (Expression.FunctionCall "sqrt" arg) ∧
      (Expression.FunctionCall "sqrt" arg).evaluate = some (Double.sqrt x) ∧
      (x.isNegative = true →
        (Expression.FunctionCall "sqrt" arg).evaluate = some (Double.nan true)) ∧
      FunctionCall.ctor "abs" (some arg) = some (Expression.FunctionCall "abs" arg) ∧
      (Expression.FunctionCall "abs" arg).evaluate = some (Double.fabs x)) ∧
    (FunctionCall.ctor "abs" (Number.ctor (-Double.lit 1234 1000))).bind Expression.evaluate
      = some (Double.lit 1234 1000) := by
  refine ⟨?_, by decide⟩
  intro arg x hx
  refine ⟨functionCall_ctor_some _ _ (Or.inl rfl), ?_, ?_,
    functionCall_ctor_some _ _ (Or.inr rfl), ?_⟩
  · simp [Expression.evaluate, hx]
  · intro hneg
    have hs : Double.sqrt x = Double.nan true := by
      cases x with
      | finite s m e =>
        simp only [Double.isNegative, Bool.and_eq_true, decide_eq_true_eq] at hneg
        simp [Double.sqrt, hneg.1, hneg.2]
      | inf s =>
        simp only [Double.isNegative] at hneg
        simp [Double.sqrt, hneg]
      | nan s => simp [Double.isNegative] at hneg
    simp [Expression.evaluate, hx, hs]
  · have hne : ¬ ("abs" = "sqrt") := by decide
    simp [Expression.evaluate, hx, hne]

/-- Witness of C2 at `arg = Number(-4.0)`: the argument is negative and the
square root is not-a-number. -/
theorem functionCall_evaluate_witness :
    (Expression.Number (-Double.lit 4 1)).evaluate = some (-Double.lit 4 1) ∧
    (-Double.lit 4 1).isNegative = true ∧
    (Expression.FunctionCall "sqrt" (Expression.Number (-Double.lit 4 1))).evaluate
      = some (Double.nan true) :=
  ⟨rfl, by decide,
    (functionCall_evaluate.1 (Expression.Number (-Double.lit 4 1)) (-Double.lit 4 1) rfl).2.2.1 (by decide)⟩

/-- C3: the constructor of `FunctionCall` succeeds exactly when the argument
is not null and the name is `sqrt` or `abs`; hence in every tree built by the
constructors each `FunctionCall` node bears one of these two names. -/
theorem functionCall_ctor :
    (∀ (name : String) (arg : Option Expression),
      (∃ node, FunctionCall.ctor name arg = some node) ↔
        (arg ≠ none ∧ (name = "sqrt" ∨ name = "abs"))) ∧
    (∀ e : Expression, Constructed e → ∀ (name : String) (arg : Expression),
      Expression.FunctionCall name arg ∈ e.nodes → name = "sqrt" ∨ name = "abs") := by
  constructor
  · intro name arg
    cases arg with
    | none => simp [FunctionCall.ctor]
    | some a =>
      constructor
      · rintro ⟨node, h⟩
        exact ⟨by simp, (functionCall_ctor_eq_some h).1⟩
      · rintro ⟨_, h⟩
        exact ⟨_, functionCall_ctor_some name a h⟩
  · intro e he name arg hmem
    have h := wellFormed_of_mem_nodes e _ ((constructed_iff_wellFormed e).1 he) hmem
    simp only [Expression.wellFormed, Bool.and_eq_true, Bool.or_eq_true,
      decide_eq_true_eq] at h
    exact h.1

/-- Witness of C3 at the tree `sqrt(x)`. -/
theorem functionCall_ctor_witness :
    Constructed (Expression.FunctionCall "sqrt" (Expression.Variable "x")) ∧
    Expression.FunctionCall "sqrt" (Expression.Variable "x")
      ∈ (Expression.FunctionCall "sqrt" (Expression.Variable "x")).nodes ∧
    ("sqrt" = "sqrt" ∨ "sqrt" = "abs") :=
  ⟨(constructed_iff_wellFormed _).2 (by decide), by decide,
    functionCall_ctor.2 (Expression.FunctionCall "sqrt" (Expression.Variable "x"))
      ((constructed_iff_wellFormed _).2 (by decide)) "sqrt" (Expression.Variable "x")
      (by decide)⟩

/-- C4: the constructor of `BinaryOperation` fails exactly when the left or
the right child is null; with both children present it succeeds for every
operator tag and yields the node holding the children and the tag. -/
theorem binaryOperation_ctor :
    (∀ (left right : Option Expression) (op : Int),
      BinaryOperation.ctor left op right = none ↔ (left = none ∨ right = none)) ∧
    (∀ (l r : Expression) (op : Int),
      BinaryOperation.ctor (some l) op (some r) = some (Expression.BinaryOperation l op r)) := by
  constructor
  · intro left right op
    cases left <;> cases right <;> simp [BinaryOperation.ctor]
  · intro l r op
    rfl

/-- C5, at the failing input `BinaryOperation(Number(1.0), '%', Number(2.0))`:
the constructors accept the tree, and `evaluate` reaches the end of the
`switch` without a `return`. -/
theorem evaluate_unhandled_tag :
    BinaryOperation.ctor (Number.ctor (Double.lit 1 1)) 37 (Number.ctor (Double.lit 2 1))
      = some (Expression.BinaryOperation (Expression.Number (Double.lit 1 1)) 37
          (Expression.Number (Double.lit 2 1))) ∧
    Constructed (Expression.BinaryOperation (Expression.Number (Double.lit 1 1)) 37
      (Expression.Number (Double.lit 2 1))) ∧
    (Expression.BinaryOperation (Expression.Number (Double.lit 1 1)) 37
      (Expression.Number (Double.lit 2 1))).evaluate = none :=
  ⟨rfl, (constructed_iff_wellFormed _).2 (by decide), by decide⟩

/-- C6: `print` of `Variable(name)` is the name; `print` of a
`BinaryOperation` with tag `PLUS`, `MINUS`, `DIV`, `MUL` is the left text, the
character `+`, `-`, `/`, `*`, then the right text, without parentheses; `print`
of `FunctionCall(name, arg)` is the name, `(`, the argument's text, `)`. -/
theorem print_grammar :
    (∀ name : String, (Expression.Variable name).print = name) ∧
    (∀ l r : Expression,
      (Expression.BinaryOperation l BinaryOperation.PLUS r).print = l.print ++ "+" ++ r.print ∧
      (Expression.BinaryOperation l BinaryOperation.MINUS r).print = l.print ++ "-" ++ r.print ∧
      (Expression.BinaryOperation l BinaryOperation.DIV r).print = l.print ++ "/" ++ r.print ∧
      (Expression.BinaryOperation l BinaryOperation.MUL r).print = l.print ++ "*" ++ r.print) ∧
    (∀ (name : String) (arg : Expression),
      (Expression.FunctionCall name arg).print = name ++ "(" ++ arg.print ++ ")") :=
  ⟨fun _ => rfl, fun _ _ => ⟨rfl, rfl, rfl, rfl⟩, fun _ _ => rfl⟩

/-- C7, refuted as stated: `print` of the tree `callAbs` of `main` is not the
text `2*sqrt(32-16)`. -/
theorem print_callAbs_ne :
    ¬ (main.callAbs.map Expression.print = some "2*sqrt(32-16)") := by
  decide

/-- C7, amended: `print` of the tree `callAbs` of `main`, which is
`abs(2 * sqrt(32 - 16))`, is the text `abs(2.000000*sqrt(32.000000-16.000000))`. -/
theorem print_callAbs :
    main.callAbs.map Expression.print = some "abs(2.000000*sqrt(32.000000-16.000000))" := by
  decide

/-- C8: the tree `e3` of `main`, `Number(1.234) DIV Number(-1.234)`, evaluates
to `-1.0`, and the tree `callAbs` of `main`, `abs(2 * sqrt(32 - 16))`,
evaluates to `8.0`. -/
theorem main_evaluate :
    main.e3.bind Expression.evaluate = some (-Double.lit 1 1) ∧
    main.callAbs.bind Expression.evaluate = some (Double.lit 8 1) := by
  decide

/-- C9: for every tree `T` built by the constructors, `T.transform(identity)`
returns a tree that evaluates like `T` and prints like `T`. -/
theorem identity_round_trip (T : Expression) (hT : Constructed T) :
    ∃ T' : Expression, (T.transform identity ()).1 = some T' ∧
      T'.evaluate = T.evaluate ∧ T'.print = T.print := by
  refine ⟨T, ?_, rfl, rfl⟩
  rw [transform_identity]
  exact identityVisit_of_wellFormed T ((constructed_iff_wellFormed T).1 hT)

/-- Witness of C9 at the tree `abs(x * sqrt(32 - 16))`. -/
theorem identity_round_trip_witness :
    Constructed (Expression.FunctionCall "abs" (Expression.BinaryOperation
      (Expression.Variable "x") BinaryOperation.MUL (Expression.FunctionCall "sqrt"
        (Expression.BinaryOperation (Expression.Number (Double.lit 32 1))
          BinaryOperation.MINUS (Expression.Number (Double.lit 16 1)))))) ∧
    ∃ T' : Expression,
      ((Expression.FunctionCall "abs" (Expression.BinaryOperation
        (Expression.Variable "x") BinaryOperation.MUL (Expression.FunctionCall "sqrt"
          (Expression.BinaryOperation (Expression.Number (Double.lit 32 1))
            BinaryOperation.MINUS (Expression.Number (Double.lit 16 1)))))).transform
              identity ()).1 = some T' ∧
      T'.evaluate = some (Double.lit 0 1) ∧
      T'.print = "abs(x*sqrt(32.000000-16.000000))" := by
  refine ⟨(constructed_iff_wellFormed _).2 (by decide), ?_⟩
  obtain ⟨T', h1, h2, h3⟩ := identity_round_trip _
    ((constructed_iff_wellFormed (Expression.FunctionCall "abs" (Expression.BinaryOperation
      (Expression.Variable "x") BinaryOperation.MUL (Expression.FunctionCall "sqrt"
        (Expression.BinaryOperation (Expression.Number (Double.lit 32 1))
          BinaryOperation.MINUS (Expression.Number (Double.lit 16 1))))))).2 (by decide))
  refine ⟨T', h1, ?_, ?_⟩
  · rw [h2]; decide
  · rw [h3]; decide

/-- C10: for every transformer, `transform` of a node returns what the
transformer's method for the node's struct returns on that node, in the same
transformer state; the result does not depend on the three other methods. -/
theorem transform_dispatch (σ : Type) (tr : Transformer σ) :
    (∀ value : Double, (Expression.Number value).transform tr = tr.transformNumber value) ∧
    (∀ (l r : Expression) (op : Int),
      (Expression.BinaryOperation l op r).transform tr = tr.transformBinaryOperation l op r) ∧
    (∀ (name : String) (arg : Expression),
      (Expression.FunctionCall name arg).transform tr = tr.transformFunctionCall name arg) ∧
    (∀ name : String, (Expression.Variable name).transform tr = tr.transformVariable name) ∧
    (∀ tr' : Transformer σ,
      (tr'.transformNumber = tr.transformNumber → ∀ value : Double,
        (Expression.Number value).transform tr' = (Expression.Number value).transform tr) ∧
      (tr'.transformBinaryOperation = tr.transformBinaryOperation →
        ∀ (l r : Expression) (op : Int),
        (Expression.BinaryOperation l op r).transform tr'
          = (Expression.BinaryOperation l op r).transform tr) ∧
      (tr'.transformFunctionCall = tr.transformFunctionCall →
        ∀ (name : String) (arg : Expression),
        (Expression.FunctionCall name arg).transform tr'
          = (Expression.FunctionCall name arg).transform tr) ∧
      (tr'.transformVariable = tr.transformVariable → ∀ name : String,
        (Expression.Variable name).transform tr' = (Expression.Variable name).transform tr)) := by
  refine ⟨fun _ => rfl, fun _ _ _ => rfl, fun _ _ => rfl, fun _ => rfl, fun tr' => ?_⟩
  refine ⟨fun h v => ?_, fun h l r op => ?_, fun h name arg => ?_, fun h name => ?_⟩ <;>
    simp only [Expression.transform, h]

/-- Witness of C10: a transformer that shares only `transformVariable` with
the identity transformer transforms a `Variable` node like the identity
transformer does. -/
theorem transform_dispatch_witness :
    (Transformer.mk (fun _ s => (none, s)) (fun _ _ _ s => (none, s)) (fun _ _ s => (none, s))
        identity.transformVariable).transformVariable = identity.transformVariable ∧
    (Expression.Variable "x").transform
        (Transformer.mk (fun _ s => (none, s)) (fun _ _ _ s => (none, s))
          (fun _ _ s => (none, s)) identity.transformVariable)
      = (Expression.Variable "x").transform identity :=
  ⟨rfl, ((transform_dispatch Unit identity).2.2.2.2
    (Transformer.mk (fun _ s => (none, s)) (fun _ _ _ s => (none, s)) (fun _ _ s => (none, s))
      identity.transformVariable)).2.2.2 rfl "x"⟩

/-- C11, refuted as stated: `Number(1.0 / 0.0)` is accepted by the
constructor and holds an infinity, which `evaluate` returns; `print` returns the
text `inf`, which is not fixed notation with six digits after the decimal
point.  `Number(sqrt(-4.0))` prints as `-nan`. -/
theorem number_print_inf_not_fixed :
    Number.ctor (Double.lit 1 1 / Double.lit 0 1)
      = some (Expression.Number (Double.inf false)) ∧
    (Expression.Number (Double.inf false)).evaluate = some (Double.inf false) ∧
    (Expression.Number (Double.inf false)).print = "inf" ∧
    fixedSixDigits (Expression.Number (Double.inf false)).print = false ∧
    (Number.ctor (Double.sqrt (-Double.lit 4 1))).map Expression.print = some "-nan" ∧
    fixedSixDigits "-nan" = false := by
  decide

/-- C11, amended: the constructor of `Number` accepts every value `v`;
`evaluate` returns `v` and `print` returns `std::to_string(v)`.  For a finite
`v` this text is in fixed notation with six digits after the decimal point: an
optional `-`, a whole part of one or more digits, a point and six digits.  For
an infinite `v` the text is `inf` or `-inf`, for a not-a-number it is `nan` or
`-nan`.  `Number(32.0)` prints as `32.000000`.  Under another locale the point
is the decimal point of that locale. -/
theorem number_evaluate_print :
    (∀ v : Double, Number.ctor v = some (Expression.Number v) ∧
      (Expression.Number v).evaluate = some v ∧
      (Expression.Number v).print = to_string Locale.C v) ∧
    (∀ (s : Bool) (m : Nat) (e : Int),
      fixedSixDigits (Expression.Number (Double.finite s m e)).print = true ∧
      ∃ whole frac : String,
        (Expression.Number (Double.finite s m e)).print
          = (if s then "-" else "") ++ whole ++ "." ++ frac ∧
        whole.data ≠ [] ∧ (∀ c ∈ whole.data, c.isDigit = true) ∧
        frac.length = 6 ∧ (∀ c ∈ frac.data, c.isDigit = true)) ∧
    (∀ (g : Locale) (s : Bool) (m : Nat) (e : Int), ∃ whole frac : String,
      ((Expression.Number (Double.finite s m e)).printCall g).text
        = (if s then "-" else "") ++ whole ++ g.decimal_point ++ frac ∧
      whole.data ≠ [] ∧ (∀ c ∈ whole.data, c.isDigit = true) ∧
      frac.length = 6 ∧ (∀ c ∈ frac.data, c.isDigit = true)) ∧
    (∀ s : Bool, (Expression.Number (Double.inf s)).print = (if s then "-inf" else "inf") ∧
      fixedSixDigits (Expression.Number (Double.inf s)).print = false) ∧
    (∀ s : Bool, (Expression.Number (Double.nan s)).print = (if s then "-nan" else "nan") ∧
      fixedSixDigits (Expression.Number (Double.nan s)).print = false) ∧
    (Number.ctor (Double.lit 32 1)).map Expression.print = some "32.000000" := by
  refine ⟨fun v => ⟨rfl, rfl, rfl⟩, ?_, ?_, ?_, ?_, by decide⟩
  · intro s m e
    refine ⟨?_, _, _, rfl, ?_, ?_, (sixDigits_shape _).1, (sixDigits_shape _).2⟩
    · exact fixedSixDigits_of_shape s _ _ (decimalAux_ne_nil _ _ _)
        (decimalAux_digits _ _ _ (by simp)) (sixDigits_shape _).1 (sixDigits_shape _).2
    · exact decimalAux_ne_nil _ _ _
    · exact decimalAux_digits _ _ _ (by simp)
  · intro g s m e
    exact ⟨_, _, rfl, decimalAux_ne_nil _ _ _, decimalAux_digits _ _ _ (by simp),
      (sixDigits_shape _).1, (sixDigits_shape _).2⟩
  · intro s
    cases s <;> exact ⟨rfl, by decide⟩
  · intro s
    cases s <;> exact ⟨rfl, by decide⟩

/-- C12: the constructor of `Variable` accepts every name, the empty one
included, and the node evaluates to `0.0`. -/
theorem variable_evaluate :
    (∀ name : String, Variable.ctor name = some (Expression.Variable name) ∧
      (Expression.Variable name).evaluate = some (Double.lit 0 1)) ∧
    (Variable.ctor "").bind Expression.evaluate = some (Double.lit 0 1) ∧
    Double.lit 0 1 = Double.finite false 0 (-1074) :=
  ⟨fun _ => ⟨rfl, rfl⟩, rfl, rfl⟩

/-- C13, refuted as stated: two calls of `print` on the tree `Number(32.0)`,
one under the locale `"C"` and one under a locale whose decimal point is a
comma, return the different texts `32.000000` and `32,000000`. -/
theorem print_depends_on_locale :
    ((Expression.Number (Double.lit 32 1)).printCall Locale.C).text = "32.000000" ∧
    ((Expression.Number (Double.lit 32 1)).printCall (Locale.mk "," "." "")).text
      = "32,000000" ∧
    ((Expression.Number (Double.lit 32 1)).printCall Locale.C).text
      ≠ ((Expression.Number (Double.lit 32 1)).printCall (Locale.mk "," "." "")).text := by
  decide

/-- C13, amended: under every locale `g`, a call of `print` on a tree leaves
the tree and the locale as it found them, and a second call, made in the state
the first one leaves, returns the same text and again leaves both unchanged;
two calls on the same tree under locales with the same decimal point return the
same text; under the locale `"C"` the text is `print`. -/
theorem print_deterministic (T : Expression) (g : Locale) :
    (T.printCall g).object = T ∧ (T.printCall g).locale = g ∧
    ((T.printCall g).object.printCall (T.printCall g).locale).text = (T.printCall g).text ∧
    ((T.printCall g).object.printCall (T.printCall g).locale).object = T ∧
    ((T.printCall g).object.printCall (T.printCall g).locale).locale = g ∧
    (∀ g' : Locale, g'.decimal_point = g.decimal_point →
      (T.printCall g').text = (T.printCall g).text) ∧
    (T.printCall Locale.C).text = T.print := by
  refine ⟨printCall_object T g, printCall_locale T g, ?_, ?_, ?_,
    fun g' h => printCall_text_congr T g g' h, printCall_text_C T⟩ <;>
    simp only [printCall_object, printCall_locale]

/-- Witness of C13 at the tree `2 * sqrt(32 - 16)` under the locale `"C"` and
under a locale that differs from it in the separator of thousands only. -/
theorem print_deterministic_witness :
    (Locale.mk "." "," "").decimal_point = Locale.C.decimal_point ∧
    ((Expression.BinaryOperation (Expression.Number (Double.lit 2 1)) BinaryOperation.MUL
      (Expression.FunctionCall "sqrt" (Expression.BinaryOperation
        (Expression.Number (Double.lit 32 1)) BinaryOperation.MINUS
        (Expression.Number (Double.lit 16 1))))).printCall (Locale.mk "." "," "")).text
      = ((Expression.BinaryOperation (Expression.Number (Double.lit 2 1)) BinaryOperation.MUL
        (Expression.FunctionCall "sqrt" (Expression.BinaryOperation
          (Expression.Number (Double.lit 32 1)) BinaryOperation.MINUS
          (Expression.Number (Double.lit 16 1))))).printCall Locale.C).text :=
  ⟨rfl, (print_deterministic _ Locale.C).2.2.2.2.2.1 (Locale.mk "." "," "") rfl⟩

/-- C14: the trees `(8 - 4) - 2` and `8 - (4 - 2)` are built by the
constructors, differ, evaluate to `2.0` and to `6.0`, and print as the same
text; so `print` is not injective and no function from texts to trees
recovers every built tree, or even a tree of the same value, from its text. -/
theorem print_lossy :
    (∃ T1 T2 : Expression, nested.left = some T1 ∧ nested.right = some T2 ∧
      Constructed T1 ∧ Constructed T2 ∧ T1 ≠ T2 ∧
      T1.evaluate = some (Double.lit 2 1) ∧ T2.evaluate = some (Double.lit 6 1) ∧
      T1.evaluate ≠ T2.evaluate ∧ T1.print = T2.print) ∧
    ¬ Function.Injective Expression.print ∧
    (¬ ∃ parse : String → Option Expression,
      ∀ T : Expression, Constructed T → parse T.print = some T) ∧
    (¬ ∃ parse : String → Option Expression,
      ∀ T : Expression, Constructed T →
        ∃ T' : Expression, parse T.print = some T' ∧ T'.evaluate = T.evaluate) := by
  have key : ∃ T1 T2 : Expression, nested.left = some T1 ∧ nested.right = some T2 ∧
      Constructed T1 ∧ Constructed T2 ∧ T1 ≠ T2 ∧
      T1.evaluate = some (Double.lit 2 1) ∧ T2.evaluate = some (Double.lit 6 1) ∧
      T1.evaluate ≠ T2.evaluate ∧ T1.print = T2.print :=
    ⟨_, _, rfl, rfl, (constructed_iff_wellFormed _).2 (by decide),
      (constructed_iff_wellFormed _).2 (by decide), by decide, by decide, by decide,
      by decide, by decide⟩
  refine ⟨key, ?_, ?_, ?_⟩ <;> obtain ⟨T1, T2, _, _, c1, c2, hne, _, _, hev, hpr⟩ := key
  · intro hinj
    exact hne (hinj hpr)
  · rintro ⟨parse, hp⟩
    have h1 := hp T1 c1
    have h2 := hp T2 c2
    rw [hpr, h2] at h1
    exact hne (Option.some.inj h1).symm
  · rintro ⟨parse, hp⟩
    obtain ⟨A, hA, hAe⟩ := hp T1 c1
    obtain ⟨B, hB, hBe⟩ := hp T2 c2
    rw [hpr, hB] at hA
    cases Option.some.inj hA
    exact hev (hAe.symm.trans hBe)

/-- C15: two trees that differ at most in the names of their `Variable`
leaves have the same result of `evaluate`. -/
theorem evaluate_ignores_names (T1 T2 : Expression) (h : T1.sameUpToNames T2 = true) :
    T1.evaluate = T2.evaluate :=
  evaluate_eq_of_sameUpToNames T1 T2 h

/-- Witness of C15 at the trees `var * sqrt(32 - 16)` and `x * sqrt(32 - 16)`. -/
theorem evaluate_ignores_names_witness :
    (Expression.BinaryOperation (Expression.Variable "var") BinaryOperation.MUL
      (Expression.FunctionCall "sqrt" (Expression.BinaryOperation
        (Expression.Number (Double.lit 32 1)) BinaryOperation.MINUS
        (Expression.Number (Double.lit 16 1))))).sameUpToNames
      (Expression.BinaryOperation (Expression.Variable "x") BinaryOperation.MUL
        (Expression.FunctionCall "sqrt" (Expression.BinaryOperation
          (Expression.Number (Double.lit 32 1)) BinaryOperation.MINUS
          (Expression.Number (Double.lit 16 1))))) = true ∧
    (Expression.BinaryOperation (Expression.Variable "var") BinaryOperation.MUL
      (Expression.FunctionCall "sqrt" (Expression.BinaryOperation
        (Expression.Number (Double.lit 32 1)) BinaryOperation.MINUS
        (Expression.Number (Double.lit 16 1))))).evaluate
      = (Expression.BinaryOperation (Expression.Variable "x") BinaryOperation.MUL
        (Expression.FunctionCall "sqrt" (Expression.BinaryOperation
          (Expression.Number (Double.lit 32 1)) BinaryOperation.MINUS
          (Expression.Number (Double.lit 16 1))))).evaluate :=
  ⟨by decide, evaluate_ignores_names _ _ (by decide)⟩

/-- C16: `print` of a `BinaryOperation` writes, between the children's texts,
the one character whose code is the tag modulo `2^8`; hence the tags `k` and
`k + 256` print alike.  The tag `'+' + 256` is accepted by the constructor, is
not handled by `evaluate`, and prints like `PLUS`. -/
theorem print_operator_narrowed :
    (∀ (l r : Expression) (k : Int),
      BinaryOperation.ctor (some l) k (some r) = some (Expression.BinaryOperation l k r) ∧
      (Expression.BinaryOperation l k r).print
        = l.print ++ String.mk [Char.ofNat (k % 2 ^ 8).toNat] ++ r.print ∧
      (String.mk [Char.ofNat (k % 2 ^ 8).toNat]).length = 1 ∧
      (Expression.BinaryOperation l (k + 256) r).print
        = (Expression.BinaryOperation l k r).print) ∧
    (∀ l r : Expression,
      BinaryOperation.ctor (some l) (BinaryOperation.PLUS + 256) (some r)
        = some (Expression.BinaryOperation l (BinaryOperation.PLUS + 256) r) ∧
      (Expression.BinaryOperation l (BinaryOperation.PLUS + 256) r).evaluate = none ∧
      (Expression.BinaryOperation l (BinaryOperation.PLUS + 256) r).print
        = (Expression.BinaryOperation l BinaryOperation.PLUS r).print ∧
      (Expression.BinaryOperation l (BinaryOperation.PLUS + 256) r).print
        = l.print ++ "+" ++ r.print) := by
  constructor
  · intro l r k
    refine ⟨rfl, rfl, rfl, ?_⟩
    simp only [Expression.print, narrow_add_256]
  · intro l r
    refine ⟨rfl, ?_, rfl, rfl⟩
    have h1 : ¬ (BinaryOperation.PLUS + 256 = BinaryOperation.PLUS) := by decide
    have h2 : ¬ (BinaryOperation.PLUS + 256 = BinaryOperation.MINUS) := by decide
    have h3 : ¬ (BinaryOperation.PLUS + 256 = BinaryOperation.DIV) := by decide
    have h4 : ¬ (BinaryOperation.PLUS + 256 = BinaryOperation.MUL) := by decide
    simp only [Expression.evaluate, if_neg h1, if_neg h2, if_neg h3, if_neg h4]
    cases l.evaluate <;> cases r.evaluate <;> rfl

end Pattern
